import Mathlib

/-!
Verification of the routing and page-creation core of `src/services/routes.js`.

The JavaScript source is shallowly embedded: each pure helper becomes a Lean
function on `String` / `List Char`, the error classifier becomes a function
into `Except` (a thrown exception is `Except.error`), and the asynchronous
page-creation transaction becomes explicit sequencing over an environment of
collaborator functions (storage, reference resolver, id generator).
-/

namespace Amphora

/-! ## Path helpers (`removeExtension`, `removeQueryString`, `normalizePath`) -/

/-- Embedding of `removeExtension`: the source computes
`path.split('.').shift()`, which keeps exactly the characters before the
first dot (the whole string when there is no dot). -/
def removeExtension (p : String) : String :=
  ⟨p.data.takeWhile (fun c => c ≠ '.')⟩

/-- Embedding of `removeQueryString`: the source computes
`path.split('?').shift()`, keeping the characters before the first
question mark. -/
def removeQueryString (p : String) : String :=
  ⟨p.data.takeWhile (fun c => c ≠ '?')⟩

/-- Embedding of `normalizePath`: query string stripped first, then
extension. -/
def normalizePath (p : String) : String :=
  removeExtension (removeQueryString p)

/-- Remove the part of a character list starting at its LAST dot; a list
with no dot is unchanged. Applied to one path segment, this removes exactly
a trailing `.extension` and leaves everything before the final dot
intact. -/
def lastDotStrip (l : List Char) : List Char :=
  if '.' ∈ l then ((l.reverse.dropWhile (fun c => c ≠ '.')).tail).reverse else l

/-- The last path segment: the characters after the last `/` (the whole
list when there is no `/`). -/
def lastSegment (l : List Char) : List Char :=
  (l.reverse.takeWhile (fun c => c ≠ '/')).reverse

/-- The complement of `lastSegment`: everything up to and including the
last `/` (empty when there is no `/`). -/
def dropLastSegment (l : List Char) : List Char :=
  (l.reverse.dropWhile (fun c => c ≠ '/')).reverse

/-- Spec-side resource key: query string removed, then only the trailing
`.extension` of the LAST path segment removed (everything from that
segment's final dot on); a dot in an earlier segment removes nothing.
Written from the words of the spec, to be compared against `normalizePath`
from the source. -/
def specResourceKey (p : String) : String :=
  ⟨dropLastSegment (removeQueryString p).data ++
    lastDotStrip (lastSegment (removeQueryString p).data)⟩

/-! ## Error classifier (`handleError`) -/

/-- A JavaScript failure value as seen by the classifier: both fields may be
absent (promise rejections are arbitrary values). -/
structure JsError where
  name : Option String
  message : Option String
deriving DecidableEq

/-- The two rendering paths the classifier can select. -/
inductive ErrRoute where
  | notFound
  | serverError
deriving DecidableEq

deriving instance DecidableEq for Except

/-- Substring test matching JavaScript `s.indexOf(sub) !== -1`. -/
def jsIncludes (s sub : String) : Bool :=
  s.data.tails.any (fun t => sub.data.isPrefixOf t)

/-- Embedding of `handleError`. The source tests, in order,
`err.name === 'NotFoundError'`, then `err.message.indexOf('ENOENT')`,
then `err.message.indexOf('not found')`; reading `.indexOf` of an absent
message raises a TypeError, modelled as `Except.error`. -/
def handleError (e : JsError) : Except Unit ErrRoute :=
  if e.name = some "NotFoundError" then .ok .notFound
  else
    match e.message with
    | none => .error ()
    | some m =>
      if jsIncludes m "ENOENT" || jsIncludes m "not found" then .ok .notFound
      else .ok .serverError

/-- The Not-Found condition exactly as the claim words it: kind explicitly
"NotFound", or the message contains "ENOENT" or "not found". Written from
the words of the spec, to be compared against `handleError`. -/
def claimNotFoundCond (e : JsError) : Bool :=
  e.name == some "NotFound" ||
    (match e.message with
     | some m => jsIncludes m "ENOENT" || jsIncludes m "not found"
     | none => false)

/-! ## Extension dispatch (`routeByExtension`) -/

/-- The whitelist `queryStringOptions = ['ignore-data']` from the source. -/
def queryStringOptions : List String := ["ignore-data"]

/-- Embedding of `_.pick(req.query, keys)`: keep exactly the query pairs
whose key is in the whitelist. -/
def jsPick (q : List (String × String)) (keys : List String) :
    List (String × String) :=
  q.filter (fun kv => keys.contains kv.fst)

/-- The part of a request that `routeByExtension` inspects: the `:ext`
route parameter and the parsed query string. -/
structure ExtReq where
  ext : String
  query : List (String × String)
deriving DecidableEq

/-- The handler selected by `routeByExtension`. -/
inductive ExtAction where
  /-- `renderComponent`, carrying the picked query options. -/
  | renderComponent (opts : List (String × String))
  /-- `notImplemented`, which sends status 501. -/
  | notImplemented
  /-- `getRouteFromComponent`, returning the raw component JSON. -/
  | getComponentData
deriving DecidableEq

/-- The outcome of extension dispatch: the forced `Accept` header plus the
selected handler. -/
structure ExtDispatch where
  accept : String
  action : ExtAction
deriving DecidableEq

/-- Embedding of `ext.toLowerCase()`, character by character. -/
def jsToLower (s : String) : String :=
  ⟨s.data.map Char.toLower⟩

/-- Embedding of `routeByExtension`: switch on `req.params.ext.toLowerCase()`
with cases `html`, `yaml`, and `json`-falling-through-to-default. -/
def routeByExtension (req : ExtReq) : ExtDispatch :=
  match jsToLower req.ext with
  | "html" => ⟨"text/html", .renderComponent (jsPick req.query queryStringOptions)⟩
  | "yaml" => ⟨"text/yaml", .notImplemented⟩
  | _ => ⟨"application/json", .getComponentData⟩

/-! ## Host routing tables (the sort inside `module.exports`) -/

/-- One entry of the site registry. -/
structure Site where
  slug : String
  host : String
  path : String
deriving DecidableEq

/-- The sort key used by the source comparator: `path.split('/').length`.
For a one-character separator, the length of the split is the number of
separator occurrences plus one. -/
def pathDepth (p : String) : Nat :=
  p.data.count '/' + 1

/-- The order induced by the source comparator
`a.path.split('/').length - b.path.split('/').length`. -/
def siteLE (a b : Site) : Prop :=
  pathDepth a.path ≤ pathDepth b.path

instance : DecidableRel siteLE := fun a b => Nat.decLe _ _

instance : IsTotal Site siteLE := ⟨fun a b => Nat.le_total _ _⟩

instance : IsTrans Site siteLE := ⟨fun _ _ _ => Nat.le_trans⟩

/-- Embedding of `sitesOnThisHost`: filter the registry by host, then sort by
path depth. `Array.prototype.sort` is stable, so the JS sort is modelled by
a stable insertion sort with the non-strict comparator order. -/
def hostTable (sitesMap : List Site) (host : String) : List Site :=
  (sitesMap.filter (fun s => s.host == host)).insertionSort siteLE

/-! ## Page creation (`createPage`) -/

/-- A JSON value as far as the transaction distinguishes them: opaque
component data copied from the reference resolver, or the final page
object `\x7blayout, ...resolved slots\x7d`. -/
inductive JsonVal where
  | raw (s : String)
  | page (layout : Option String) (slots : List (String × String))
deriving DecidableEq

/-- One staged batch operation `\x7btype, key, value\x7d`. -/
structure BatchOp where
  type : String
  key : String
  value : JsonVal
deriving DecidableEq

/-- The collaborators `createPage` calls: the reference resolver and the
storage batch primitive. -/
structure PageEnv where
  getComponentName : String → String
  getComponentData : String → Except String JsonVal
  batch : List BatchOp → Except String Unit

/-- The request body of `POST /pages`: an optional layout reference plus the
named slots, in JS object insertion order. -/
structure PageBody where
  layout : Option String
  slots : List (String × String)
deriving DecidableEq

/-- The object sent by `res.send` on success: layout, resolved slots, and the
self-reference `_ref`. -/
structure PageResponse where
  layout : Option String
  slots : List (String × String)
  ref : String
deriving DecidableEq

/-- Everything observable about one run of `createPage`: the argument passed
to `db.batch` when it is called, the argument passed to `res.send` when it
is called, and whether the failure path (which only logs) ran. -/
structure PageOutcome where
  batchCall : Option (List BatchOp)
  responseSent : Option PageResponse
  errorLogged : Bool
deriving DecidableEq

/-- The per-slot fan-out of `createPage`: for each non-layout slot, resolve
the referenced component defaults, generate a fresh instance id, stage a put
of the copied data, and record the instance key as the slot value. The
concurrent resolutions are modelled as completing in body order; `n` numbers
the id-generator calls (call 0 is the page id). `bluebird.props` rejects as
soon as any slot rejects, so a single `Except.error` propagates. -/
def resolveSlots (env : PageEnv) (uid : Nat → String) :
    List (String × String) → Nat →
    Except String (List BatchOp × List (String × String))
  | [], _ => .ok ([], [])
  | (k, v) :: rest, n =>
    let componentName := env.getComponentName v
    match env.getComponentData ("/components/" ++ componentName) with
    | .error e => .error e
    | .ok componentData =>
      let componentInstance :=
        "/components/" ++ componentName ++ "/instances/" ++ uid n
      match resolveSlots env uid rest (n + 1) with
      | .error e => .error e
      | .ok (ops, vals) =>
        .ok (⟨"put", componentInstance, componentData⟩ :: ops, (k, componentInstance) :: vals)

/-- Embedding of `createPage`. The page id is the first generated id; the
slot map is `_.omit(body, 'layout')`; after the join, one final put maps the
page key to `\x7blayout, ...resolved slots\x7d` and the batch is submitted; on
batch success `res.send` gets the page object with `_ref` set to the page
key. Any rejection reaches the final `.catch`, which only logs. -/
def createPage (env : PageEnv) (uid : Nat → String) (body : PageBody) :
    PageOutcome :=
  let layoutReference := body.layout
  let pageData := body.slots.filter (fun kv => kv.fst != "layout")
  let pageReference := "/pages/" ++ uid 0
  match resolveSlots env uid pageData 1 with
  | .error _ => ⟨none, none, true⟩
  | .ok (componentOps, resolvedSlots) =>
    let ops := componentOps ++ [⟨"put", pageReference, .page layoutReference resolvedSlots⟩]
    match env.batch ops with
    | .error _ => ⟨some ops, none, true⟩
    | .ok _ => ⟨some ops, some ⟨layoutReference, resolvedSlots, pageReference⟩, false⟩

/-! ## Response envelope (`expectJSON`) and the list endpoints -/

/-- What one call of `expectJSON` does to the response object it closes
over: serialize the success, render a classified error, or crash with an
escaped TypeError so that nothing at all is written to the response. -/
inductive ExpectOutcome (α : Type) where
  | jsonSent (v : α)
  | errorHandled (r : ErrRoute)
  | noResponse
deriving DecidableEq

/-- Embedding of `expectJSON(fn, res)`. `res` is `none` when the caller
omitted the argument: then `res.json(result)` (or `res.status(...)` inside
the error renderers) raises a TypeError on `undefined` and no body is ever
written. With a real `res`, a success is serialized and a failure is
classified; a classifier throw also escapes without a response. -/
def expectJSON {α : Type} (fn : Except JsError α) (res : Option Unit) :
    ExpectOutcome α :=
  match res with
  | none => .noResponse
  | some _ =>
    match fn with
    | .ok v => .jsonSent v
    | .error e =>
      match handleError e with
      | .ok r => .errorHandled r
      | .error _ => .noResponse

/-- Embedding of the deferred-collection branch of `listAllWithPrefix`.
`res` is the live response object of the request; `list` is the resolved or
rejected collection from `db.list`. The source calls
`expectJSON(_.constant(list))` with no second argument, so the `res` the
endpoint received is never given to the envelope. -/
def listAllWithPrefix (res : Option Unit) (list : Except JsError (List String)) :
    ExpectOutcome (List String) :=
  expectJSON list none

/-! ## Concrete fixtures used to run the model on explicit inputs -/

/-- An identifier supply whose values are distinct across indices. -/
def demoUid (n : Nat) : String := "id" ++ Nat.repr n

/-- Collaborators where every component resolves and the batch commits. -/
def demoEnv : PageEnv :=
  ⟨fun v => v, fun key => .ok (.raw key), fun _ => .ok ()⟩

/-- Collaborators where resolving component `y` fails. -/
def failResolveEnv : PageEnv :=
  ⟨fun v => v,
   fun key => if key = "/components/y" then .error "resolution failed" else .ok (.raw key),
   fun _ => .ok ()⟩

/-- Collaborators where every component resolves but the batch commit fails. -/
def failBatchEnv : PageEnv :=
  ⟨fun v => v, fun key => .ok (.raw key), fun _ => .error "commit failed"⟩

/-- A page-creation body with a layout reference and two slots. -/
def demoBody : PageBody := ⟨some "/layout-ref", [("left", "x"), ("right", "y")]⟩

/-- Registry where the root path ties with a deeper path on segment count:
both `/` and `/foo` split into two segments. -/
def overlapSites : List Site := [⟨"foo", "h", "/foo"⟩, ⟨"root", "h", "/"⟩]

/-- Registry shaped like the example in the spec: `/` and `/foo/`. -/
def demoSites : List Site := [⟨"a", "h", "/"⟩, ⟨"b", "h", "/foo/"⟩]

/-! ## Helper lemmas -/

theorem takeWhile_eq_self_of_all {α : Type} {p : α → Bool} {l : List α}
    (h : ∀ x ∈ l, p x = true) : l.takeWhile p = l := by
  induction l with
  | nil => rfl
  | cons a t ih =>
    rw [List.takeWhile_cons, if_pos (h a (List.mem_cons_self a t)),
      ih (fun x hx => h x (List.mem_cons_of_mem a hx))]

theorem takeWhile_append_all {α : Type} (p : α → Bool) (a t : List α)
    (h : ∀ x ∈ a, p x = true) :
    (a ++ t).takeWhile p = a ++ t.takeWhile p := by
  induction a with
  | nil => rfl
  | cons x xs ih =>
    simp only [List.cons_append, List.takeWhile_cons,
      h x (List.mem_cons_self x xs), if_true]
    rw [ih (fun y hy => h y (List.mem_cons_of_mem x hy))]

theorem takeWhile_append_of_all {α : Type} (p : α → Bool) (a : List α) (c : α)
    (b : List α) (h : ∀ x ∈ a, p x = true) (hc : p c = false) :
    (a ++ c :: b).takeWhile p = a := by
  induction a with
  | nil => simp [List.takeWhile_cons, hc]
  | cons x xs ih =>
    have hx := h x (List.mem_cons_self x xs)
    simp only [List.cons_append, List.takeWhile_cons, hx, if_true]
    rw [ih (fun y hy => h y (List.mem_cons_of_mem x hy))]

theorem dropWhile_append_of_all {α : Type} (p : α → Bool) (a : List α) (c : α)
    (b : List α) (h : ∀ x ∈ a, p x = true) (hc : p c = false) :
    (a ++ c :: b).dropWhile p = c :: b := by
  induction a with
  | nil => simp [List.dropWhile_cons, hc]
  | cons x xs ih =>
    have hx := h x (List.mem_cons_self x xs)
    simp only [List.cons_append, List.dropWhile_cons, hx, if_true]
    exact ih (fun y hy => h y (List.mem_cons_of_mem x hy))

theorem dropWhile_head_false {α : Type} (p : α → Bool) (l : List α) (c : α)
    (b : List α) (hd : l.dropWhile p = c :: b) : p c = false := by
  induction l with
  | nil => simp at hd
  | cons x xs ih =>
    rw [List.dropWhile_cons] at hd
    by_cases hx : p x = true
    · exact ih (by rwa [if_pos hx] at hd)
    · rw [if_neg hx] at hd
      cases hd
      simpa using hx

theorem normalizeData_idem (q d : Char → Bool) (l : List Char) :
    (((l.takeWhile q).takeWhile d).takeWhile q).takeWhile d
      = (l.takeWhile q).takeWhile d := by
  have h1 : ((l.takeWhile q).takeWhile d).takeWhile q
      = (l.takeWhile q).takeWhile d := by
    apply takeWhile_eq_self_of_all
    intro x hx
    exact List.mem_takeWhile_imp ((List.takeWhile_sublist d).subset hx)
  rw [h1, List.takeWhile_idem]

/-- On a character list holding at most one dot, truncation at the first dot
agrees with stripping the part from the last dot on. -/
theorem takeWhile_eq_lastDotStrip (l : List Char)
    (h : l.count '.' ≤ 1) :
    l.takeWhile (fun c => c ≠ '.') = lastDotStrip l := by
  by_cases hm : '.' ∈ l
  · have hsplit := (List.takeWhile_append_dropWhile
      (p := fun c => c ≠ '.') (l := l)).symm
    have hrest : ∃ b, l.dropWhile (fun c => c ≠ '.') = '.' :: b := by
      cases hd : l.dropWhile (fun c => c ≠ '.') with
      | nil =>
        rw [hd, List.append_nil] at hsplit
        have : ('.' : Char) ≠ '.' := by
          have := List.mem_takeWhile_imp (p := fun c => c ≠ '.') (hsplit ▸ hm)
          simpa using this
        exact absurd rfl this
      | cons c b =>
        have hc := dropWhile_head_false (fun c => c ≠ '.') l c b hd
        have : c = '.' := by simpa using hc
        exact ⟨b, by rw [← this]⟩
    obtain ⟨b, hb⟩ := hrest
    set a := l.takeWhile (fun c => c ≠ '.') with ha
    have hl : l = a ++ '.' :: b := by rw [ha, ← hb]; exact hsplit
    have hanodot : ∀ x ∈ a, x ≠ '.' := by
      intro x hx
      have := List.mem_takeWhile_imp (p := fun c => c ≠ '.') (ha ▸ hx)
      simpa using this
    have hbnodot : ∀ x ∈ b, x ≠ '.' := by
      have hcount : l.count '.' = a.count '.' + (1 + b.count '.') := by
        rw [hl, List.count_append, List.count_cons_self]
        omega
      have hbz : b.count '.' = 0 := by omega
      intro x hx hxdot
      have : 0 < b.count '.' := List.count_pos_iff.mpr (hxdot ▸ hx)
      omega
    have hrev : l.reverse = b.reverse ++ '.' :: a.reverse := by
      rw [hl]
      simp
    rw [lastDotStrip, if_pos hm, hrev,
      dropWhile_append_of_all _ _ _ _
        (fun x hx => by simpa using hbnodot x (List.mem_reverse.mp hx))
        (by simp)]
    simp
  · rw [lastDotStrip, if_neg hm]
    apply takeWhile_eq_self_of_all
    intro x hx
    simp only [decide_eq_true_eq]
    intro hdot
    exact hm (hdot ▸ hx)

/-! ## Claim theorems -/

/-- Claim C6: `normalize(p) = removeExtension(removeQueryString(p))` is
idempotent, and `normalize("/components/foo.html?x=1") = "/components/foo"`. -/
theorem C6_normalizePath_idempotent :
    (∀ p : String, normalizePath (normalizePath p) = normalizePath p) ∧
    normalizePath "/components/foo.html?x=1" = "/components/foo" := by
  constructor
  · intro p
    show String.mk ((((p.data.takeWhile (fun c => c ≠ '?')).takeWhile
        (fun c => c ≠ '.')).takeWhile (fun c => c ≠ '?')).takeWhile
        (fun c => c ≠ '.'))
      = String.mk ((p.data.takeWhile (fun c => c ≠ '?')).takeWhile
        (fun c => c ≠ '.'))
    exact congrArg String.mk (normalizeData_idem _ _ p.data)
  · decide

/-- Claim C7 counterexample: on a last path segment holding two dots the
code truncates at the first dot, removing characters before the final dot
of the last segment; and on a dot in an earlier segment the code truncates
there as well, although a trailing-extension removal leaves that path
unchanged (its last segment `5` has no dot). -/
theorem C7_truncates_at_first_dot :
    normalizePath "/components/my.component.html" = "/components/my" ∧
    specResourceKey "/components/my.component.html" = "/components/my.component" ∧
    normalizePath "/components/my.component.html" ≠
      specResourceKey "/components/my.component.html" ∧
    normalizePath "/components/my.component/instances/5" = "/components/my" ∧
    specResourceKey "/components/my.component/instances/5"
      = "/components/my.component/instances/5" ∧
    normalizePath "/components/my.component/instances/5" ≠
      specResourceKey "/components/my.component/instances/5" := by
  decide

/-- Claim C7 amended: when the query-stripped path has no dot outside its
last segment and at most one dot within it, the derived resource key equals
the path with exactly the trailing `.extension` of the last segment and the
query string removed; otherwise the code truncates at the first dot
instead. -/
theorem C7_amended_resource_key (p : String)
    (hpre : '.' ∉ dropLastSegment (removeQueryString p).data)
    (hseg : (lastSegment (removeQueryString p).data).count '.' ≤ 1) :
    normalizePath p = specResourceKey p := by
  show String.mk ((removeQueryString p).data.takeWhile (fun c => c ≠ '.'))
    = String.mk (dropLastSegment (removeQueryString p).data ++
        lastDotStrip (lastSegment (removeQueryString p).data))
  apply congrArg String.mk
  have hsplit : dropLastSegment (removeQueryString p).data ++
      lastSegment (removeQueryString p).data = (removeQueryString p).data := by
    unfold dropLastSegment lastSegment
    rw [← List.reverse_append, List.takeWhile_append_dropWhile, List.reverse_reverse]
  calc (removeQueryString p).data.takeWhile (fun c => c ≠ '.')
      = (dropLastSegment (removeQueryString p).data ++
          lastSegment (removeQueryString p).data).takeWhile (fun c => c ≠ '.') := by
        rw [hsplit]
    _ = dropLastSegment (removeQueryString p).data ++
          (lastSegment (removeQueryString p).data).takeWhile (fun c => c ≠ '.') := by
        apply takeWhile_append_all
        intro x hx
        simp only [decide_eq_true_eq]
        intro hdot
        exact hpre (hdot ▸ hx)
    _ = dropLastSegment (removeQueryString p).data ++
          lastDotStrip (lastSegment (removeQueryString p).data) := by
        rw [takeWhile_eq_lastDotStrip _ hseg]

/-- Witness for the amended C7 at a concrete input whose only path dot is
in the last segment and whose query string holds a second dot. -/
theorem C7_amended_resource_key_witness :
    ('.' ∉ dropLastSegment (removeQueryString "/components/foo.html?x=1.2").data) ∧
    (lastSegment (removeQueryString "/components/foo.html?x=1.2").data).count '.' ≤ 1 ∧
    normalizePath "/components/foo.html?x=1.2"
      = specResourceKey "/components/foo.html?x=1.2" :=
  ⟨by decide, by decide,
   C7_amended_resource_key "/components/foo.html?x=1.2" (by decide) (by decide)⟩

/-- Claim C3 counterexample: a failure whose kind is exactly "NotFound" (the
string the claim names) with a message holding neither substring is
classified as a Server Error by the code, because the code compares the kind
against "NotFoundError". -/
theorem C3_kind_string_mismatch :
    claimNotFoundCond ⟨some "NotFound", some "gone"⟩ = true ∧
    handleError ⟨some "NotFound", some "gone"⟩ = Except.ok ErrRoute.serverError ∧
    ¬ ((handleError ⟨some "NotFound", some "gone"⟩ = Except.ok ErrRoute.notFound) ↔
        claimNotFoundCond ⟨some "NotFound", some "gone"⟩ = true) := by
  decide

/-- Claim C3 amended: for every failure carrying a message string, the
classifier selects Not-Found iff the kind is explicitly "NotFoundError", or
the message contains the substring "ENOENT", or the substring "not found"
(case-sensitive); every other such failure is classified as a Server
Error. -/
theorem C3_amended_classification (e : JsError) (m : String)
    (hm : e.message = some m) :
    ((handleError e = Except.ok ErrRoute.notFound) ↔
      (e.name = some "NotFoundError" ∨ jsIncludes m "ENOENT" = true ∨
        jsIncludes m "not found" = true)) ∧
    ((handleError e = Except.ok ErrRoute.serverError) ↔
      ¬ (e.name = some "NotFoundError" ∨ jsIncludes m "ENOENT" = true ∨
        jsIncludes m "not found" = true)) := by
  unfold handleError
  rw [hm]
  by_cases hn : e.name = some "NotFoundError"
  · simp [hn]
  · by_cases h1 : jsIncludes m "ENOENT" = true <;>
      by_cases h2 : jsIncludes m "not found" = true <;>
        simp [hn, h1, h2]

/-- Witness for the amended C3 at concrete failures. -/
theorem C3_amended_classification_witness :
    handleError ⟨some "TypeError", some "boom"⟩ = Except.ok ErrRoute.serverError ∧
    handleError ⟨some "Error", some "key not found in db"⟩
      = Except.ok ErrRoute.notFound :=
  ⟨(C3_amended_classification ⟨some "TypeError", some "boom"⟩ "boom" rfl).2.mpr
      (by decide),
   (C3_amended_classification ⟨some "Error", some "key not found in db"⟩
      "key not found in db" rfl).1.mpr (by decide)⟩

/-- Claim C8 counterexample: a failure without a message field whose kind is
not "NotFoundError" makes the classifier itself throw (reading `.indexOf` of
an absent message), so classification can throw and selects neither
rendering path. -/
theorem C8_classifier_throws_without_message :
    handleError ⟨some "Error", none⟩ = Except.error () := by
  decide

/-- Claim C8 amended: for every failure that carries a message string or
whose kind is "NotFoundError", classification never throws: it selects
either the Not-Found or the Server-Error rendering path. A message-less
failure of any other kind makes classification itself throw. -/
theorem C8_amended_no_throw (e : JsError)
    (h : e.message.isSome ∨ e.name = some "NotFoundError") :
    handleError e = Except.ok ErrRoute.notFound ∨
      handleError e = Except.ok ErrRoute.serverError := by
  unfold handleError
  by_cases hn : e.name = some "NotFoundError"
  · simp [hn]
  · rcases h with h | h
    · obtain ⟨m, hm⟩ := Option.isSome_iff_exists.mp h
      rw [hm]
      by_cases hc : (jsIncludes m "ENOENT" || jsIncludes m "not found") = true <;>
        simp [hn, hc]
    · exact absurd h hn

/-- Witness for the amended C8 at a concrete failure with no name field. -/
theorem C8_amended_no_throw_witness :
    handleError ⟨none, some "boom"⟩ = Except.ok ErrRoute.notFound ∨
      handleError ⟨none, some "boom"⟩ = Except.ok ErrRoute.serverError :=
  C8_amended_no_throw ⟨none, some "boom"⟩ (Or.inl (by decide))

theorem jsPick_whitelist (q : List (String × String)) :
    jsPick q queryStringOptions = q.filter (fun kv => kv.fst == "ignore-data") := by
  unfold jsPick queryStringOptions
  apply List.filter_congr
  intro kv _
  by_cases h : kv.fst = "ignore-data"
  · rw [h]
    decide
  · have h1 : (kv.fst == "ignore-data") = false := beq_eq_false_iff_ne.mpr h
    have h2 : ("ignore-data" == kv.fst) = false := beq_eq_false_iff_ne.mpr (Ne.symm h)
    simp [List.contains_eq_any_beq, h1, h2]
    exact h

/-- Claim C5: extension `html` forces Accept `text/html` and invokes
rendering with only the whitelisted query option `ignore-data` passed
through; `yaml` forces `text/yaml` and selects the 501 handler; `json`
forces `application/json` and selects the raw component JSON handler. -/
theorem C5_extension_dispatch (q : List (String × String)) :
    routeByExtension ⟨"html", q⟩ =
      ⟨"text/html",
        ExtAction.renderComponent (q.filter (fun kv => kv.fst == "ignore-data"))⟩ ∧
    routeByExtension ⟨"yaml", q⟩ = ⟨"text/yaml", ExtAction.notImplemented⟩ ∧
    routeByExtension ⟨"json", q⟩ = ⟨"application/json", ExtAction.getComponentData⟩ := by
  refine ⟨?_, rfl, rfl⟩
  show ExtDispatch.mk "text/html"
    (ExtAction.renderComponent (jsPick q queryStringOptions)) = _
  rw [jsPick_whitelist]

/-- Claim C10: extension matching lowercases the extension first, and every
extension other than `html` and `yaml` takes the default branch: Accept is
forced to `application/json` and the raw component JSON is returned. -/
theorem C10_lowercase_and_default_branch :
    (∀ e1 e2 : String, ∀ q : List (String × String),
        jsToLower e1 = jsToLower e2 →
        routeByExtension ⟨e1, q⟩ = routeByExtension ⟨e2, q⟩) ∧
    (∀ e : String, ∀ q : List (String × String),
        jsToLower e ≠ "html" → jsToLower e ≠ "yaml" →
        routeByExtension ⟨e, q⟩ = ⟨"application/json", ExtAction.getComponentData⟩) := by
  constructor
  · intro e1 e2 q h
    unfold routeByExtension
    rw [h]
  · intro e q h1 h2
    unfold routeByExtension
    split
    next heq => exact absurd heq h1
    next heq => exact absurd heq h2
    next => rfl

/-- Witness for C10: uppercase `HTML` dispatches like `html`, and an
unlisted extension such as `txt` takes the json default branch. -/
theorem C10_lowercase_and_default_branch_witness :
    routeByExtension ⟨"HTML", [("edit", "true")]⟩
      = routeByExtension ⟨"html", [("edit", "true")]⟩ ∧
    routeByExtension ⟨"txt", []⟩ = ⟨"application/json", ExtAction.getComponentData⟩ :=
  ⟨C10_lowercase_and_default_branch.1 "HTML" "html" [("edit", "true")] (by decide),
   C10_lowercase_and_default_branch.2 "txt" [] (by decide) (by decide)⟩

/-- Claim C2: with exactly two non-layout slots whose components resolve,
the transaction stages exactly the three listed batch operations (one put
per component instance plus one put for the page, the page key last), and
on commit success the response object carries `_ref` equal to the page key
used in the batch. -/
theorem C2_two_slot_transaction (env : PageEnv) (uid : Nat → String)
    (body : PageBody) (k1 v1 k2 v2 : String) (d1 d2 : JsonVal)
    (hslots : body.slots.filter (fun kv => kv.fst != "layout") = [(k1, v1), (k2, v2)])
    (h1 : env.getComponentData ("/components/" ++ env.getComponentName v1) = .ok d1)
    (h2 : env.getComponentData ("/components/" ++ env.getComponentName v2) = .ok d2) :
    (createPage env uid body).batchCall = some
        [⟨"put", "/components/" ++ env.getComponentName v1 ++ "/instances/" ++ uid 1, d1⟩,
         ⟨"put", "/components/" ++ env.getComponentName v2 ++ "/instances/" ++ uid 2, d2⟩,
         ⟨"put", "/pages/" ++ uid 0, JsonVal.page body.layout
            [(k1, "/components/" ++ env.getComponentName v1 ++ "/instances/" ++ uid 1),
             (k2, "/components/" ++ env.getComponentName v2 ++ "/instances/" ++ uid 2)]⟩] ∧
    (env.batch
        [⟨"put", "/components/" ++ env.getComponentName v1 ++ "/instances/" ++ uid 1, d1⟩,
         ⟨"put", "/components/" ++ env.getComponentName v2 ++ "/instances/" ++ uid 2, d2⟩,
         ⟨"put", "/pages/" ++ uid 0, JsonVal.page body.layout
            [(k1, "/components/" ++ env.getComponentName v1 ++ "/instances/" ++ uid 1),
             (k2, "/components/" ++ env.getComponentName v2 ++ "/instances/" ++ uid 2)]⟩]
       = Except.ok () →
      (createPage env uid body).responseSent = some
        ⟨body.layout,
         [(k1, "/components/" ++ env.getComponentName v1 ++ "/instances/" ++ uid 1),
          (k2, "/components/" ++ env.getComponentName v2 ++ "/instances/" ++ uid 2)],
         "/pages/" ++ uid 0⟩) := by
  have hres : resolveSlots env uid [(k1, v1), (k2, v2)] 1 = .ok
      ([⟨"put", "/components/" ++ env.getComponentName v1 ++ "/instances/" ++ uid 1, d1⟩,
        ⟨"put", "/components/" ++ env.getComponentName v2 ++ "/instances/" ++ uid 2, d2⟩],
       [(k1, "/components/" ++ env.getComponentName v1 ++ "/instances/" ++ uid 1),
        (k2, "/components/" ++ env.getComponentName v2 ++ "/instances/" ++ uid 2)]) := by
    simp [resolveSlots, h1, h2]
  unfold createPage
  rw [hslots]
  simp only [hres, List.cons_append, List.nil_append]
  cases hb : env.batch
      [⟨"put", "/components/" ++ env.getComponentName v1 ++ "/instances/" ++ uid 1, d1⟩,
       ⟨"put", "/components/" ++ env.getComponentName v2 ++ "/instances/" ++ uid 2, d2⟩,
       ⟨"put", "/pages/" ++ uid 0, JsonVal.page body.layout
          [(k1, "/components/" ++ env.getComponentName v1 ++ "/instances/" ++ uid 1),
           (k2, "/components/" ++ env.getComponentName v2 ++ "/instances/" ++ uid 2)]⟩] with
  | error e => simp [hb]
  | ok u => simp [hb]

/-- Witness for C2 on concrete collaborators, two slots and the id supply
`id0, id1, id2`: the staged batch and the response at the end of a
successful run. -/
theorem C2_two_slot_transaction_witness :
    (createPage demoEnv demoUid demoBody).batchCall = some
        [⟨"put", "/components/x/instances/id1", JsonVal.raw "/components/x"⟩,
         ⟨"put", "/components/y/instances/id2", JsonVal.raw "/components/y"⟩,
         ⟨"put", "/pages/id0", JsonVal.page (some "/layout-ref")
            [("left", "/components/x/instances/id1"),
             ("right", "/components/y/instances/id2")]⟩] ∧
    (createPage demoEnv demoUid demoBody).responseSent = some
        ⟨some "/layout-ref",
         [("left", "/components/x/instances/id1"),
          ("right", "/components/y/instances/id2")],
         "/pages/id0"⟩ := by
  have h := C2_two_slot_transaction demoEnv demoUid demoBody "left" "x" "right" "y"
    (JsonVal.raw "/components/x") (JsonVal.raw "/components/y") rfl rfl rfl
  exact ⟨by rw [h.1]; decide, by rw [h.2 rfl]; decide⟩

/-- Claim C1: when a slot resolution fails, no batch write is submitted; but
contrary to the claim the caller never receives a Server Error response: the
failure path only logs (`.catch` writes to the log and sends nothing), both
for resolution failures and for commit failures. -/
theorem C1_failure_not_surfaced :
    createPage failResolveEnv demoUid demoBody = ⟨none, none, true⟩ ∧
    (createPage failBatchEnv demoUid demoBody).responseSent = none ∧
    (createPage failBatchEnv demoUid demoBody).errorLogged = true := by
  exact ⟨by decide, by decide, by decide⟩

/-- Claim C9: the deferred-collection branch of the list endpoints calls the
JSON envelope without handing it the response object, so a resolved
collection is never serialized to the caller and a rejection is never
rendered: nothing at all is written to the response in either case. -/
theorem C9_list_endpoint_never_responds :
    listAllWithPrefix (some ()) (Except.ok ["/pages/a", "/pages/b"])
      = ExpectOutcome.noResponse ∧
    listAllWithPrefix (some ()) (Except.error ⟨some "Error", some "db failed"⟩)
      = ExpectOutcome.noResponse ∧
    expectJSON (Except.ok ["/pages/a", "/pages/b"]) (some ())
      = ExpectOutcome.jsonSent ["/pages/a", "/pages/b"] := by
  exact ⟨rfl, rfl, rfl⟩

theorem filter_orderedInsert_of_neg (r : Site → Site → Prop) [DecidableRel r]
    (P : Site → Bool) (a : Site) (l : List Site) (ha : P a = false) :
    (List.orderedInsert r a l).filter P = l.filter P := by
  induction l with
  | nil => simp [List.orderedInsert, ha]
  | cons b t ih =>
    by_cases hr : r a b
    · simp [List.orderedInsert, hr, List.filter_cons, ha]
    · simp only [List.orderedInsert, if_neg hr, List.filter_cons, ih]

theorem filter_orderedInsert_of_pos (r : Site → Site → Prop) [DecidableRel r]
    (P : Site → Bool) (a : Site) (l : List Site) (ha : P a = true)
    (hall : ∀ b, P b = true → r a b) :
    (List.orderedInsert r a l).filter P = a :: l.filter P := by
  induction l with
  | nil => simp [List.orderedInsert, ha]
  | cons b t ih =>
    by_cases hr : r a b
    · simp [List.orderedInsert, hr, List.filter_cons, ha]
    · have hPb : P b = false := by
        cases hPb : P b
        · rfl
        · exact absurd (hall b hPb) hr
      simp [List.orderedInsert, hr, List.filter_cons, hPb, ih]

/-- Stability of the host sort: the sites of any fixed depth keep their
original relative order. -/
theorem insertionSort_filter_depth (l : List Site) (d : Nat) :
    (l.insertionSort siteLE).filter (fun s => pathDepth s.path == d) =
      l.filter (fun s => pathDepth s.path == d) := by
  induction l with
  | nil => rfl
  | cons a t ih =>
    rw [List.insertionSort]
    by_cases ha : (pathDepth a.path == d) = true
    · rw [filter_orderedInsert_of_pos siteLE _ a _ ha ?hall, ih, List.filter_cons,
        if_pos ha]
      case hall =>
        intro b hb
        have had : pathDepth a.path = d := by simpa using ha
        have hbd : pathDepth b.path = d := by simpa using hb
        show pathDepth a.path ≤ pathDepth b.path
        omega
    · have ha' : (pathDepth a.path == d) = false := by
        cases hx : (pathDepth a.path == d)
        · rfl
        · exact absurd hx ha
      rw [filter_orderedInsert_of_neg siteLE _ a _ ha', ih, List.filter_cons,
        if_neg (by simp [ha'])]

/-- Claim C4 counterexample: on the same host, the path `/` is a proper
string prefix of `/foo`, yet both split into two segments, so they tie on
the sort key; the registry order `[foo, root]` survives the stable sort and
the site with the longer path appears first, not later. -/
theorem C4_prefix_tie_violation :
    hostTable overlapSites "h"
      = [⟨"foo", "h", "/foo"⟩, ⟨"root", "h", "/"⟩] ∧
    "/".data.isPrefixOf "/foo".data = true ∧ ("/" : String) ≠ "/foo" ∧
    pathDepth "/" = pathDepth "/foo" := by
  decide

/-- Claim C4 amended: each host table is a permutation of the sites on that
host, sorted ascending by the number of path segments with ties keeping
original registry order; and when one site path is a proper prefix of
another with strictly fewer path segments, the longer path appears later.
(With equal segment counts, registry order decides, as the counterexample
shows.) -/
theorem C4_amended_host_order (sitesMap : List Site) (host : String) :
    List.Perm (hostTable sitesMap host)
      (sitesMap.filter (fun s => s.host == host)) ∧
    List.Sorted siteLE (hostTable sitesMap host) ∧
    (∀ d : Nat, (hostTable sitesMap host).filter (fun s => pathDepth s.path == d) =
      (sitesMap.filter (fun s => s.host == host)).filter
        (fun s => pathDepth s.path == d)) ∧
    (∀ i j : Nat, ∀ hi : i < (hostTable sitesMap host).length,
      ∀ hj : j < (hostTable sitesMap host).length,
      (((hostTable sitesMap host).get ⟨i, hi⟩).path.data).isPrefixOf
          (((hostTable sitesMap host).get ⟨j, hj⟩).path.data) = true →
      pathDepth ((hostTable sitesMap host).get ⟨i, hi⟩).path <
        pathDepth ((hostTable sitesMap host).get ⟨j, hj⟩).path →
      i < j) := by
  refine ⟨List.perm_insertionSort siteLE _, List.sorted_insertionSort siteLE _,
    fun d => insertionSort_filter_depth _ d, ?_⟩
  intro i j hi hj hpre hlt
  by_contra hij
  push_neg at hij
  rcases Nat.lt_or_ge j i with hji | hle
  · have hrel := (List.sorted_insertionSort siteLE
      (sitesMap.filter (fun s => s.host == host))).rel_get_of_lt
      (a := ⟨j, hj⟩) (b := ⟨i, hi⟩) hji
    have : pathDepth ((hostTable sitesMap host).get ⟨j, hj⟩).path ≤
        pathDepth ((hostTable sitesMap host).get ⟨i, hi⟩).path := hrel
    omega
  · have : i = j := by omega
    subst this
    omega

/-- Witness for the amended C4 on the spec example sites `/` and `/foo/`:
the table is sorted, and the site at the shallower prefix path sits at the
earlier index. -/
theorem C4_amended_host_order_witness :
    List.Sorted siteLE (hostTable demoSites "h") ∧ (0 : Nat) < 1 :=
  ⟨(C4_amended_host_order demoSites "h").2.1,
   (C4_amended_host_order demoSites "h").2.2.2 0 1 (by decide) (by decide)
     (by decide) (by decide)⟩

end Amphora
